import Mathlib

/-!
Verification of the TAO job-workflow orchestrator
(`nvidia_tao_core/microservices/job_utils/workflow.py` and
`nvidia_tao_core/microservices/app_handlers/job_handler.py`).

The Python code is shallowly embedded: pure decision logic becomes Lean
functions, database/executor side effects are reified as explicit effect
lists, and external collaborators (Mongo store, Kubernetes executor,
dependency resolvers living in modules outside the embedded sources) are
passed in as function parameters.  Timestamps are modelled as integer
seconds.
-/

/-! ## String helpers

Python's `"pat" in s` substring test and `''.join(s.rsplit(sep, 1))`
(remove the last occurrence of `sep`) are modelled on `List Char`.
-/

/-- Boolean test that `pat` is a prefix of `l` (char lists). -/
def isPrefChars : List Char → List Char → Bool
  | [], _ => true
  | _ :: _, [] => false
  | a :: as, b :: bs => a == b && isPrefChars as bs

/-- Boolean test that `pat` occurs as a contiguous sublist of `l`;
this is Python's `pat in s` on strings. -/
def hasSubChars (pat : List Char) : List Char → Bool
  | [] => isPrefChars pat []
  | c :: rest => isPrefChars pat (c :: rest) || hasSubChars pat rest

/-- Python `pat in s` for strings. -/
def strContains (s pat : String) : Bool :=
  hasSubChars pat.data s.data

/-- Remove the first occurrence of `pat` (a contiguous sublist) from `l`;
`l` is returned unchanged when `pat` does not occur. -/
def stripFirstSub (pat : List Char) : List Char → List Char
  | [] => []
  | c :: rest =>
    if isPrefChars pat (c :: rest) then List.drop pat.length (c :: rest)
    else c :: stripFirstSub pat rest

/-- Python `''.join(s.rsplit(sep, 1))`: remove the last occurrence of
`sep` from `s` (identity when `sep` does not occur).  Implemented by
removing the first occurrence of the reversed separator in the reversed
string. -/
def removeLastOccurrence (sep s : String) : String :=
  ⟨(stripFirstSub sep.data.reverse s.data.reverse).reverse⟩

/-- Join a list of strings with a separator (no trailing separator). -/
def joinSep (sep : String) : List String → String
  | [] => ""
  | [m] => m
  | m :: rest => m ++ sep ++ joinSep sep rest

/-! ## AutoML controller info and `terminate_timed_out_job`

From `workflow.py`.  A persisted controller-info document is either not a
list at all, or a list whose entries are either dicts (a recommendation
with `id`, `status`, `message` and further fields, modelled by the opaque
`extra` payload) or arbitrary non-dict values. -/

/-- One AutoML recommendation dict: `id` (already through Python `str`),
`status`, `message`; `extra` stands for all remaining keys, which the
orchestrator never touches. -/
structure Recc where
  id : String
  status : String
  message : String
  extra : Nat
deriving Repr, DecidableEq

/-- One entry of the per-job controller-info list: a dict (recommendation)
or a non-dict value (`isinstance(recommendation, dict)` fails). -/
inductive CtrlEntry where
  | dictEntry (r : Recc)
  | nonDict (tag : Nat)
deriving Repr, DecidableEq

/-- The persisted controller-info document: a list of entries, or any
non-list value (`isinstance(controller_info, list)` fails). -/
inductive CtrlInfo where
  | notList (tag : Nat)
  | listOf (entries : List CtrlEntry)
deriving Repr, DecidableEq

/-- The `job_info` dict consumed by `terminate_timed_out_job` /
`check_job_timeout`.  Missing `job_id`/`handler_id` are the empty string
(falsy), as with `dict.get`. -/
structure TimedOutJobInfo where
  job_id : String
  handler_id : String
  kind : String
  is_automl : Bool
  experiment_number : String
  last_modified : Option Int
deriving Repr, DecidableEq

/-- Message written by `terminate_timed_out_job` onto a timed-out AutoML
recommendation. -/
def timeoutTerminationMessage : String :=
  "Terminated due to timeout - no status updates received"

/-- Embedding of the `for recommendation in controller_info` loop of
`terminate_timed_out_job`: rebuilds the controller list, marking every
dict entry whose `str(id)` equals the experiment number, dropping
non-dict entries, and reporting whether a matching entry was found. -/
def terminateLoop (expNum : String) : List CtrlEntry → List CtrlEntry × Bool
  | [] => ([], false)
  | CtrlEntry.dictEntry r :: rest =>
    let r1 := if r.id == expNum then
        { r with status := "error", message := timeoutTerminationMessage }
      else r
    let tail := terminateLoop expNum rest
    (CtrlEntry.dictEntry r1 :: tail.1, (r.id == expNum) || tail.2)
  | CtrlEntry.nonDict _ :: rest => terminateLoop expNum rest

/-- Reified outcome of `terminate_timed_out_job`: the returned boolean,
the controller list passed to `save_automl_controller_info` (if any), the
sequence of `delete_statefulset` calls (by statefulset name, in order),
and the `update_job_status` writes `(handler_id, job_id, status)`. -/
structure TerminateOutcome where
  ret : Bool
  saved : Option (List CtrlEntry)
  deletions : List String
  statusWrites : List (String × String × String)
deriving Repr, DecidableEq

/-- Embedding of `terminate_timed_out_job` (workflow.py).  `controller`
is the document returned by `get_automl_controller_info(job_id)` and
`deleteOk name` the success of `delete_statefulset(name, use_ngc=True)`. -/
def terminate_timed_out_job (info : TimedOutJobInfo) (controller : CtrlInfo)
    (deleteOk : String → Bool) : TerminateOutcome :=
  if info.job_id.isEmpty || info.handler_id.isEmpty then
    ⟨false, none, [], []⟩
  else if info.is_automl then
    match controller with
    | CtrlInfo.notList _ => ⟨false, none, [], []⟩
    | CtrlInfo.listOf entries =>
      let res := terminateLoop info.experiment_number entries
      if res.2 then
        let experiment_job_id := info.job_id ++ "-" ++ info.experiment_number
        if deleteOk experiment_job_id then
          ⟨true, some res.1, [experiment_job_id], []⟩
        else
          ⟨deleteOk info.job_id, some res.1, [experiment_job_id, info.job_id], []⟩
      else ⟨false, none, [], []⟩
  else
    ⟨deleteOk info.job_id, none, [info.job_id],
      [(info.handler_id, info.job_id, "Error")]⟩

/-- Pointwise form of the controller rebuild on dict entries, used to
state sibling preservation. -/
def markEntry (expNum : String) : CtrlEntry → CtrlEntry
  | CtrlEntry.dictEntry r =>
    CtrlEntry.dictEntry (if r.id == expNum then
        { r with status := "error", message := timeoutTerminationMessage }
      else r)
  | CtrlEntry.nonDict t => CtrlEntry.nonDict t

/-! ## `check_job_timeout`

From `workflow.py`.  Timestamps are integer seconds; `now` is the value
of `datetime.now()` at the comparison.  `get_last_status_timestamp` (the
maximum timestamp in the status history, `None` when there is no usable
history) and the job-metadata lookup are inputs.  The global constant
`JOB_STATUS_TIMEOUT_MINUTES` lives in `constants.py` and is passed as the
`timeoutMinutes` argument. -/

/-- Job metadata relevant to the timeout check: the user-visible `status`
and the `last_modified` timestamp (if present and parseable). -/
structure JobMeta where
  status : String
  last_modified : Option Int
deriving Repr, DecidableEq

/-- Inputs read by `check_job_timeout` from the outside world. -/
structure TimeoutEnv where
  controller : CtrlInfo
  job_metadata : Option JobMeta
  lastStatusTimestamp : Option Int
deriving Repr, DecidableEq

/-- Search of the controller-info list performed by the AutoML branch of
`check_job_timeout`: status of the first dict entry whose `str(id)` is
the experiment number (`none` when not found or not a list). -/
def findExpStatus (expNum : String) : CtrlInfo → Option String
  | CtrlInfo.notList _ => none
  | CtrlInfo.listOf entries =>
    match entries with
    | [] => none
    | CtrlEntry.dictEntry r :: rest =>
      if r.id == expNum then some r.status
      else findExpStatus expNum (CtrlInfo.listOf rest)
    | CtrlEntry.nonDict _ :: rest => findExpStatus expNum (CtrlInfo.listOf rest)

/-- Core elapsed-time comparison of `check_job_timeout`: last status
timestamp, falling back to `last_modified` (job metadata for regular
jobs, the `job_info` dict for AutoML experiments); with no timestamp at
all the job is assumed to have just started. -/
def timeoutElapsedCheck (info : TimedOutJobInfo) (env : TimeoutEnv)
    (timeoutMinutes : Nat) (now : Int) : Bool :=
  let timeout_seconds : Int := (timeoutMinutes : Int) * 60
  let last? : Option Int :=
    match env.lastStatusTimestamp with
    | some t => some t
    | none =>
      if info.is_automl then info.last_modified
      else env.job_metadata.bind (fun jm => jm.last_modified)
  match last? with
  | none => false
  | some last => decide (now - last > timeout_seconds)

/-- Embedding of `check_job_timeout` (workflow.py). -/
def check_job_timeout (info : TimedOutJobInfo) (env : TimeoutEnv)
    (timeoutMinutes : Nat) (now : Int) : Bool :=
  if info.job_id.isEmpty then false
  else if info.is_automl then
    match findExpStatus info.experiment_number env.controller with
    | none => false
    | some st =>
      if st == "pending" || st == "running" || st == "started" then
        timeoutElapsedCheck info env timeoutMinutes now
      else false
  else
    match env.job_metadata with
    | none => false
    | some jm =>
      if jm.status == "Running" || jm.status == "Pending" then
        timeoutElapsedCheck info env timeoutMinutes now
      else false

/-! ## The scheduler tick (`scan_for_jobs` body)

From `workflow.py`.  One iteration of the `while True` loop, restricted
to the queue traffic (heartbeats, auto-deletion side channel and the
timeout sweep do not touch the scheduling state modelled here).

The job store is a list of records; `Workflow.enqueue`/`dequeue` and the
per-job message write are field updates keyed by job id.  The dependency
resolvers (`dependencies.py`, not part of the embedded sources) are a
function parameter `checker`, and `execute_job`'s success is the
parameter `execOk`. -/

/-- A `Dependency` dataclass instance. -/
structure WDependency where
  type : String
  name : String
  num : Int
deriving Repr, DecidableEq

/-- A `Job` dataclass instance.  Comparison of two jobs (used by the
priority queue and `list.sort`) is inherited from `PrioritizedItem` and
reads only `priority` and `created_on`; every other field is declared
`compare=False`. -/
structure WJob where
  id : String
  priority : Int
  created_on : Int
  handler_id : String
  kind : String
  action : String
  dependencies : List WDependency
deriving Repr, DecidableEq

/-- A persisted job document: the dataclass fields plus the
orchestrator-owned `workflow_status` flag and the user-visible pending
message written by `update_job_message`. -/
structure JobRecord where
  job : WJob
  workflow_status : String
  message : String
deriving Repr, DecidableEq

/-- The `tao.jobs` collection. -/
abbrev JobsDb := List JobRecord

/-- Lookup of a job record's `workflow_status` by id. -/
def statusOf (db : JobsDb) (id : String) : Option String :=
  (List.find? (fun r => r.job.id == id) db).map (fun r => r.workflow_status)

/-- Lookup of a job record's pending message by id. -/
def messageOf (db : JobsDb) (id : String) : Option String :=
  (List.find? (fun r => r.job.id == id) db).map (fun r => r.message)

/-- `update_job_message`: store the pending-reason message on the job
record. -/
def setMessage (db : JobsDb) (id : String) (msg : String) : JobsDb :=
  db.map (fun r => if r.job.id == id then { r with message := msg } else r)

/-- Upsert of the `workflow_status` field (the only Job field
`Workflow.dequeue` changes before `write_job`). -/
def setWorkflowStatus (db : JobsDb) (id : String) (st : String) : JobsDb :=
  db.map (fun r => if r.job.id == id then { r with workflow_status := st } else r)

/-- `get_all_queued_jobs`: all jobs whose record has
`workflow_status == 'enqueued'`. -/
def get_all_queued_jobs (db : JobsDb) : List WJob :=
  (db.filter (fun r => r.workflow_status == "enqueued")).map (fun r => r.job)

/-- `still_exists`: the job's record exists and is still `enqueued`. -/
def still_exists (db : JobsDb) (id : String) : Bool :=
  match List.find? (fun r => r.job.id == id) db with
  | some r => r.workflow_status == "enqueued"
  | none => false

/-- The `PrioritizedItem` comparison inherited by `Job`: lexicographic on
`(priority, created_on)` and nothing else. -/
def jobKeyLE (a b : WJob) : Bool :=
  decide (a.priority < b.priority) ||
    (a.priority == b.priority && decide (a.created_on ≤ b.created_on))

/-- Order in which the tick evaluates jobs: the enqueued jobs arranged by
`list.sort(queue.queue)`, a stable sort under the `(priority,
created_on)` comparison.  (The preceding `PriorityQueue.put` phase only
permutes entries using the same comparison, so it affects at most the
relative order of key-ties.) -/
def sortJobs (l : List WJob) : List WJob :=
  l.mergeSort jobKeyLE

/-- The separator joining unmet-dependency reasons. -/
def reasonSep : String := " and, "

/-- Test performed on each dependency report:
`"Parent job " in message and "errored out" in message`. -/
def erroredPattern (message : String) : Bool :=
  strContains message "Parent job " && strContains message "errored out"

/-- Result of the per-job dependency loop: `all_met`, the accumulated
`pending_reason_message`, whether the loop broke on the errored-parent
pattern (appending the job to `jobs_to_dequeue`), and how many
dependencies were actually evaluated. -/
structure DepScan where
  all_met : Bool
  pending : String
  broke : Bool
  evaluated : Nat
deriving Repr, DecidableEq

/-- Embedding of the `for dep in job.dependencies` loop of
`scan_for_jobs`, with `checker` standing for `dependency_check`. -/
def depLoop (checker : WJob → WDependency → Bool × String) (job : WJob) :
    List WDependency → Bool → String → DepScan
  | [], all_met, pending => ⟨all_met, pending, false, 0⟩
  | d :: rest, all_met, pending =>
    let r := checker job d
    let pending1 := if r.1 then pending else pending ++ r.2 ++ reasonSep
    let all_met1 := if r.1 then all_met else false
    if erroredPattern r.2 then ⟨all_met1, pending1, true, 1⟩
    else
      let tail := depLoop checker job rest all_met1 pending1
      { tail with evaluated := tail.evaluated + 1 }

/-- Per-tick scan over the ordered job list: writes each job's pending
message, dispatches jobs whose dependencies are all met and which are
still enqueued, and collects `jobs_to_dequeue` (errored-parent breaks and
successful dispatches, in program order).  `dispatched` is the source's
`if all_met and still_exists(job): if execute_job(job)` success path
(`execOk` is pure, so evaluating it under the conjunction is equivalent
to the source's guarded call).  Returns the store after the message
writes, `jobs_to_dequeue`, and the successfully dispatched jobs. -/
def scanJobs (checker : WJob → WDependency → Bool × String)
    (execOk : WJob → Bool) :
    List WJob → JobsDb → JobsDb × List WJob × List WJob
  | [], db => (db, [], [])
  | j :: rest, db =>
    let res := depLoop checker j j.dependencies true ""
    let msg := removeLastOccurrence reasonSep res.pending
    let db1 := setMessage db j.id msg
    let dispatched := res.all_met && still_exists db1 j.id && execOk j
    let tail := scanJobs checker execOk rest db1
    (tail.1,
     (if res.broke then [j] else []) ++ (if dispatched then [j] else [])
       ++ tail.2.1,
     (if dispatched then [j] else []) ++ tail.2.2)

/-- Batched queue removal applied after the scan:
`for job in jobs_to_dequeue: Workflow.dequeue(job)`. -/
def dequeueAll (dq : List WJob) (db : JobsDb) : JobsDb :=
  dq.foldl (fun d j => setWorkflowStatus d j.id "dequeued") db

/-- One scheduler tick of `scan_for_jobs` over the job store: load the
enqueued jobs into the priority queue, sort, scan, then apply the batched
removals.  Returns the new store and the dispatched jobs. -/
def scan_for_jobs_tick (checker : WJob → WDependency → Bool × String)
    (execOk : WJob → Bool) (db : JobsDb) : JobsDb × List WJob :=
  let order := sortJobs (get_all_queued_jobs db)
  let scanned := scanJobs checker execOk order db
  (dequeueAll scanned.2.1 scanned.1, scanned.2.2)

/-- The job store after `n` further ticks. -/
def ticksAfter (checker : WJob → WDependency → Bool × String)
    (execOk : WJob → Bool) (db : JobsDb) : Nat → JobsDb
  | 0 => db
  | n + 1 => (scan_for_jobs_tick checker execOk (ticksAfter checker execOk db n)).1

/-! ## Dependency resolvers

Modelled from the spec: `dependencies.py` (the `dependency_type_map`
resolver functions selected by `dependency_check`) is not among the
embedded sources; the built-in resolver kinds are reconstructed from the
spec's §4.2. -/

/-- External state read by the modelled resolvers: the status of a named
parent job and of a named AutoML recommendation. -/
structure DepEnv where
  parentStatus : String → Option String
  automlRecStatus : String → Option String

/-- Modelled from the spec: `dependency_check` dispatching on the
dependency type.  `parent_job` is met once the named job is `Done` and
reports "Parent job X errored out" when that job is in `Error`; `automl`
is met once the named recommendation is no longer
pending/running/started; unknown types fall back to a default resolver
that reports met (fail-open). -/
def dependency_check_modelled (env : DepEnv) (_job : WJob)
    (dep : WDependency) : Bool × String :=
  if dep.type == "parent_job" then
    match env.parentStatus dep.name with
    | some "Done" => (true, "")
    | some "Error" => (false, "Parent job " ++ dep.name ++ " errored out")
    | _ => (false, "Parent job " ++ dep.name ++ " not finished")
  else if dep.type == "automl" then
    match env.automlRecStatus dep.name with
    | some st =>
      if st == "pending" || st == "running" || st == "started" then
        (false, "AutoML recommendation " ++ dep.name ++ " still in progress")
      else (true, "")
    | none => (false, "AutoML recommendation " ++ dep.name ++ " still in progress")
  else (true, "")

/-! ## Recovery (`Workflow.restart_threads`)

From `workflow.py`.  `get_all_pending_jobs` (persisted jobs whose
user-visible status calls for an active monitor) is an input list; the
handler-metadata store, the live jobs collection consulted by
`still_exists`, the network-config pipeline lookup and the per-job
controller info are function parameters.  Side effects are reified:
which jobs had their status history cleared (`delete_dnn_status`), which
jobs had a monitoring thread launched, and which AutoML brains were
resumed. -/

/-- One persisted job dict from `get_all_pending_jobs`. -/
structure PendingJobDict where
  id : String
  parent_id : String
  action : String
  name : String
  org_name : Option String
  platform_id : String
  experiment_id : Option String
  dataset_id : Option String
  workspace_id : Option String
deriving Repr

/-- Handler metadata as read during recovery. -/
structure HandlerMeta where
  user_id : String
  org_name : Option String
  num_gpu : Int
  automl_enabled : Bool
  network : String
deriving Repr

/-- A recommendation of the controller info as read during recovery
(`.get` lookups, so both fields may be missing). -/
structure AutoRec where
  id : Option String
  status : Option String
deriving Repr

/-- External state consulted by `restart_threads`. -/
structure RecoveryEnv where
  handlerMeta : String → String → Option HandlerMeta
  jobWorkflowStatus : String → Option String
  pipelineFound : String → String → Bool
  controllerRecs : String → List AutoRec

/-- Reified effects of `restart_threads`. -/
structure RecoveryEffects where
  cleared : List String
  monitorsLaunched : List String
  brainResumes : List String
deriving Repr, DecidableEq

/-- Embedding of the `still_exists` guard as used during recovery: the
job's record in the jobs collection has `workflow_status == 'enqueued'`
(a missing record or field reads as `'unknown'`). -/
def stillExistsEnv (env : RecoveryEnv) (jobId : String) : Bool :=
  match env.jobWorkflowStatus jobId with
  | some st => st == "enqueued"
  | none => false

/-- Determination of `(kind, handler_id)` from the persisted job dict:
`experiment_id`, then `dataset_id`, then `workspace_id`; `none` means the
job is skipped (unknown handler kind). -/
def restartKindHandler (jd : PendingJobDict) : Option (String × String) :=
  match jd.experiment_id with
  | some h => some ("experiment", h)
  | none =>
    match jd.dataset_id with
    | some h => some ("dataset", h)
    | none =>
      match jd.workspace_id with
      | some h => some ("workspace", h)
      | none => none

/-- Continuation of the per-job recovery loop body once handler metadata
has been found: org-name fallback, the `still_exists` skip, then either
the plain-job restart (clear status history, relaunch monitor when the
action pipeline is found) or the AutoML restart (resume the brain at most
once, relaunch one monitor per still-active recommendation). -/
def restartOneWithMeta (env : RecoveryEnv) (brainRestarted : Bool)
    (jd : PendingJobDict) (kind handler_id : String) (hm : HandlerMeta) :
    RecoveryEffects × Bool :=
  let orgOk := jd.org_name.isSome || hm.org_name.isSome
  if !orgOk then (⟨[], [], []⟩, brainRestarted)
  else if stillExistsEnv env jd.id then (⟨[], [], []⟩, brainRestarted)
  else if !hm.automl_enabled then
    let launched := if env.pipelineFound hm.network jd.action then [jd.id] else []
    (⟨[jd.id], launched, []⟩, brainRestarted)
  else
    match env.handlerMeta handler_id (kind ++ "s") with
    | none => (⟨[], [], []⟩, brainRestarted)
    | some _ =>
      let resumes := if brainRestarted then [] else [jd.id]
      let active := (env.controllerRecs jd.id).filter (fun rec =>
        (match rec.status with
         | some st => st == "pending" || st == "running" || st == "started"
         | none => false) && rec.id.isSome)
      let launched := active.map (fun _ => jd.id)
      (⟨[], launched, resumes⟩, true)

/-- Body of the `for job_dict in jobs` loop of `restart_threads` for one
job, given the brain-restart flag; returns the effects contributed by
this job and the updated flag. -/
def restartOne (env : RecoveryEnv) (brainRestarted : Bool)
    (jd : PendingJobDict) : RecoveryEffects × Bool :=
  match restartKindHandler jd with
  | none => (⟨[], [], []⟩, brainRestarted)
  | some (kind, handler_id) =>
    match env.handlerMeta handler_id kind with
    | none => (⟨[], [], []⟩, brainRestarted)
    | some hm => restartOneWithMeta env brainRestarted jd kind handler_id hm

/-- Embedding of `Workflow.restart_threads` over the pending-jobs list,
accumulating effects in program order. -/
def restart_threads (env : RecoveryEnv) : List PendingJobDict → Bool →
    RecoveryEffects
  | [], _ => ⟨[], [], []⟩
  | jd :: rest, brainRestarted =>
    let step := restartOne env brainRestarted jd
    let tail := restart_threads env rest step.2
    ⟨step.1.cleared ++ tail.cleared,
     step.1.monitorsLaunched ++ tail.monitorsLaunched,
     step.1.brainResumes ++ tail.brainResumes⟩

/-! ## `JobHandler.job_cancel` and `JobHandler.job_pause`

From `job_handler.py`.  External collaborators (`resolve_metadata`,
`check_write_access`, `get_handler_job_metadata`, `is_request_automl`,
`AutoMLHandler.stop`, the Kubernetes executor and workflow-queue
helpers) are inputs; their invocations are reified as an effect list. -/

/-- Side effects performed by cancel/pause, in program order. -/
inductive CancelEffect where
  | statusWrite (status : String)
  | statefulsetDelete (jobId : String)
  | automlStop
  | onDeleteJob
  | onDeleteAutomlJob
deriving Repr, DecidableEq

/-- Handler metadata as read by cancel/pause: the keys of its `jobs`
dict and its owner. -/
structure CPHandlerMeta where
  jobsKeys : List String
  user_id : String
deriving Repr, DecidableEq

/-- Job metadata as read by cancel/pause. -/
structure CPJobMeta where
  status : String
  action : String
  specsLocalCluster : Bool
deriving Repr, DecidableEq

/-- External world of one cancel/pause call. -/
structure CancelEnv where
  handlerMeta : Option CPHandlerMeta
  writeAccess : Bool
  jobMeta : Option CPJobMeta
  isAutoml : Bool
  automlStopCode : Nat
  onDeleteAutomlRaises : Bool
  k8sStatusAt : Nat → String
  pollFuel : Nat
  runningRaises : Bool

/-- Statuses on which cancel/pause is a no-op returning success. -/
def noOpStatuses : List String :=
  ["Error", "Done", "Canceled", "Canceling", "Pausing", "Paused"]

/-- Actions for which `job_pause` is allowed at all. -/
def pausableActions : List String := ["train", "distill", "quantize", "retrain"]

/-- The `while k8s_status in (...)` polling loop of the Running branch:
polls `get_job_status` until a terminal or unknown state; pure reads, no
reified effects.  `fuel` bounds the unrolling (the Python loop may spin
forever on a stuck compute unit). -/
def pollK8s (statusAt : Nat → String) : Nat → Nat → Bool
  | _, 0 => false
  | i, fuel + 1 =>
    let st := statusAt i
    if st == "Done" || st == "Error" then true
    else if st == "Running" || st == "Pending" then pollK8s statusAt (i + 1) fuel
    else true

/-- Shared automl branch of cancel/pause: write the transitional status,
stop the AutoML controller, purge pending recommendations
(`on_delete_automl_job`, whose exception is swallowed into a 200), then
write the final status and return the AutoML stop response. -/
def automlCancelBranch (env : CancelEnv) (transitional final : String) :
    Nat × List CancelEffect :=
  if env.onDeleteAutomlRaises then
    (200, [CancelEffect.statusWrite transitional, CancelEffect.automlStop])
  else
    (env.automlStopCode,
      [CancelEffect.statusWrite transitional, CancelEffect.automlStop,
       CancelEffect.onDeleteAutomlJob, CancelEffect.statusWrite final])

/-- Shared Pending branch of cancel/pause: transitional status, removal
from the workflow queue, statefulset deletion, final status, 200. -/
def pendingCancelBranch (job_id transitional final : String) :
    Nat × List CancelEffect :=
  (200, [CancelEffect.statusWrite transitional, CancelEffect.onDeleteJob,
    CancelEffect.statefulsetDelete job_id, CancelEffect.statusWrite final])

/-- Shared Running branch of cancel/pause: transitional status,
statefulset deletion, poll to quiescence, final status, 200; an executor
exception surfaces as 404 after the transitional write. -/
def runningCancelBranch (env : CancelEnv) (job_id transitional final : String) :
    Nat × List CancelEffect :=
  if env.runningRaises then
    (404, [CancelEffect.statusWrite transitional])
  else
    let _ := pollK8s env.k8sStatusAt 0 env.pollFuel
    (200, [CancelEffect.statusWrite transitional,
      CancelEffect.statefulsetDelete job_id, CancelEffect.statusWrite final])

/-- Embedding of `JobHandler.job_cancel`: returned code and reified
effects. -/
def job_cancel (env : CancelEnv) (job_id : String) : Nat × List CancelEffect :=
  match env.handlerMeta with
  | none => (404, [])
  | some hm =>
    if !(hm.jobsKeys.contains job_id) then (404, [])
    else if !env.writeAccess then (404, [])
    else
      match env.jobMeta with
      | none => (404, [])
      | some jm =>
        if env.isAutoml then automlCancelBranch env "Canceling" "Canceled"
        else if noOpStatuses.contains jm.status then (200, [])
        else if jm.status == "Pending" then
          pendingCancelBranch job_id "Canceling" "Canceled"
        else if jm.status == "Running" then
          runningCancelBranch env job_id "Canceling" "Canceled"
        else (404, [])

/-- Embedding of `JobHandler.job_pause`: returned code and reified
effects.  Unlike cancel there is no membership check of the job in the
handler's `jobs` dict, and non-pausable actions are rejected with 404
before the no-op status check. -/
def job_pause (env : CancelEnv) (job_id : String) : Nat × List CancelEffect :=
  match env.handlerMeta with
  | none => (404, [])
  | some _ =>
    if !env.writeAccess then (404, [])
    else
      match env.jobMeta with
      | none => (404, [])
      | some jm =>
        if env.isAutoml then automlCancelBranch env "Pausing" "Paused"
        else if !(pausableActions.contains jm.action) then (404, [])
        else if noOpStatuses.contains jm.status then (200, [])
        else if jm.status == "Pending" then
          pendingCancelBranch job_id "Pausing" "Paused"
        else if jm.status == "Running" then
          runningCancelBranch env job_id "Pausing" "Paused"
        else (404, [])

/-- Replay of cancel/pause effects onto the visible job status: a status
write updates the stored job metadata, other effects leave the modelled
state unchanged. -/
def applyCancelEffects (env : CancelEnv) (effs : List CancelEffect) : CancelEnv :=
  effs.foldl (fun e eff =>
    match eff with
    | CancelEffect.statusWrite st =>
      { e with jobMeta := e.jobMeta.map (fun jm => { jm with status := st }) }
    | _ => e) env

/-! ## Characterization helpers used by the theorem statements -/

/-- Whether a controller-info entry is a dict. -/
def isDictEntry : CtrlEntry → Bool
  | CtrlEntry.dictEntry _ => true
  | CtrlEntry.nonDict _ => false

/-- The unmet-dependency reasons collected by the dependency loop, in
evaluation order (stopping at the errored-parent break). -/
def unmetMessages (checker : WJob → WDependency → Bool × String) (job : WJob) :
    List WDependency → List String
  | [] => []
  | d :: rest =>
    let r := checker job d
    let here := if r.1 then [] else [r.2]
    if erroredPattern r.2 then here
    else here ++ unmetMessages checker job rest

/-- Reasons joined with a trailing separator after each entry, the raw
accumulation shape of `pending_reason_message`. -/
def trailJoin : List String → String
  | [] => ""
  | m :: rest => m ++ reasonSep ++ trailJoin rest

/-- A record with this id exists in the store. -/
def idExists (db : JobsDb) (id : String) : Bool :=
  (List.find? (fun r => r.job.id == id) db).isSome

/-- Every record carrying this id is dequeued. -/
def allDequeued (db : JobsDb) (id : String) : Prop :=
  ∀ r ∈ db, r.job.id = id → r.workflow_status = "dequeued"

/-! ## Lemmas: strings -/

theorem isPrefChars_append (p l : List Char) : isPrefChars p (p ++ l) = true := by
  induction p with
  | nil => rfl
  | cons a as ih => simp [isPrefChars, ih]

theorem stripFirstSub_self (p l : List Char) (hp : p ≠ []) :
    stripFirstSub p (p ++ l) = l := by
  cases p with
  | nil => exact absurd rfl hp
  | cons a as =>
    have hpre : isPrefChars (a :: as) ((a :: as) ++ l) = true := isPrefChars_append _ _
    show stripFirstSub (a :: as) (a :: (as ++ l)) = l
    simp only [stripFirstSub]
    rw [show a :: (as ++ l) = (a :: as) ++ l from rfl, hpre]
    simp only [if_true]
    exact List.drop_left (a :: as) l

theorem removeLastOccurrence_trailing (sep s : String) (h : sep.data ≠ []) :
    removeLastOccurrence sep (s ++ sep) = s := by
  unfold removeLastOccurrence
  rw [String.data_append, List.reverse_append,
    stripFirstSub_self _ _ (by simpa using h), List.reverse_reverse]

theorem removeLastOccurrence_emptyStr (sep : String) :
    removeLastOccurrence sep "" = "" := by
  unfold removeLastOccurrence
  cases hsep : sep.data.reverse with
  | nil => rfl
  | cons c cs => rfl

/-! ## Lemmas: `terminate_timed_out_job` -/

theorem terminateLoop_fst (expNum : String) (entries : List CtrlEntry) :
    (terminateLoop expNum entries).1
      = (entries.filter isDictEntry).map (markEntry expNum) := by
  induction entries with
  | nil => rfl
  | cons e rest ih =>
    cases e with
    | dictEntry r => simp [terminateLoop, isDictEntry, markEntry, ih]
    | nonDict t => simp [terminateLoop, isDictEntry, ih]

theorem terminateLoop_found (expNum : String) (entries : List CtrlEntry) :
    (terminateLoop expNum entries).2 = true
      ↔ ∃ r, CtrlEntry.dictEntry r ∈ entries ∧ r.id = expNum := by
  induction entries with
  | nil => simp [terminateLoop]
  | cons e rest ih =>
    cases e with
    | dictEntry r =>
      simp only [terminateLoop, Bool.or_eq_true, beq_iff_eq, ih]
      constructor
      · rintro (hid | ⟨r', hmem, hid⟩)
        · exact ⟨r, List.mem_cons_self _ _, hid⟩
        · exact ⟨r', List.mem_cons_of_mem _ hmem, hid⟩
      · rintro ⟨r', hmem, hid⟩
        rcases List.mem_cons.mp hmem with heq | hmem'
        · left
          cases heq
          exact hid
        · right
          exact ⟨r', hmem', hid⟩
    | nonDict t =>
      simp only [terminateLoop, ih]
      constructor
      · rintro ⟨r', hmem, hid⟩
        exact ⟨r', List.mem_cons_of_mem _ hmem, hid⟩
      · rintro ⟨r', hmem, hid⟩
        rcases List.mem_cons.mp hmem with heq | hmem'
        · cases heq
        · exact ⟨r', hmem', hid⟩

/-- C1, the claim as amended.  When the Timeout Tracker terminates a
timed-out AutoML recommendation, the per-job controller list is rebuilt
with the matching recommendation's entry marked `status="error"` (not
`"failure"`) together with the explanatory timeout message, that rebuilt
list is persisted, and deletion of the compute unit keyed by the
composite `job_id-experiment_number` is requested, falling back to the
bare job id exactly when that composite unit is not found. -/
theorem c1_terminate_marks_error_and_deletes_composite
    (info : TimedOutJobInfo) (deleteOk : String → Bool)
    (entries : List CtrlEntry) (r : Recc)
    (hj : info.job_id.isEmpty = false) (hh : info.handler_id.isEmpty = false)
    (ha : info.is_automl = true)
    (hmem : CtrlEntry.dictEntry r ∈ entries) (hid : r.id = info.experiment_number) :
    (terminate_timed_out_job info (CtrlInfo.listOf entries) deleteOk).saved
      = some ((entries.filter isDictEntry).map (markEntry info.experiment_number))
    ∧ CtrlEntry.dictEntry
        { r with status := "error", message := timeoutTerminationMessage }
        ∈ (entries.filter isDictEntry).map (markEntry info.experiment_number)
    ∧ (terminate_timed_out_job info (CtrlInfo.listOf entries) deleteOk).deletions
      = (if deleteOk (info.job_id ++ "-" ++ info.experiment_number) then
          [info.job_id ++ "-" ++ info.experiment_number]
        else [info.job_id ++ "-" ++ info.experiment_number, info.job_id])
    ∧ (terminate_timed_out_job info (CtrlInfo.listOf entries) deleteOk).ret
      = (deleteOk (info.job_id ++ "-" ++ info.experiment_number)
          || deleteOk info.job_id)
    ∧ (terminate_timed_out_job info (CtrlInfo.listOf entries) deleteOk).statusWrites
      = [] := by
  have hfound : (terminateLoop info.experiment_number entries).2 = true :=
    (terminateLoop_found _ _).mpr ⟨r, hmem, hid⟩
  have hmark : CtrlEntry.dictEntry
      { r with status := "error", message := timeoutTerminationMessage }
      ∈ (entries.filter isDictEntry).map (markEntry info.experiment_number) := by
    refine List.mem_map.mpr ⟨CtrlEntry.dictEntry r, ?_, ?_⟩
    · exact List.mem_filter.mpr ⟨hmem, rfl⟩
    · simp [markEntry, hid]
  refine ⟨?_, hmark, ?_, ?_, ?_⟩ <;>
    simp only [terminate_timed_out_job, hj, hh, ha, hfound, Bool.false_or,
      Bool.or_false, if_true, if_false, ite_true, ite_false] <;>
    by_cases hdel : deleteOk (info.job_id ++ "-" ++ info.experiment_number) <;>
    simp [hdel, terminateLoop_fst]

/-- Witness for the amended C1 theorem at the spec's concrete scenario
(recommendation id 5 terminated, id 6 pending). -/
theorem c1_terminate_marks_error_and_deletes_composite_witness :
    (terminate_timed_out_job
        ⟨"job1", "h1", "experiment", true, "5", none⟩
        (CtrlInfo.listOf
          [CtrlEntry.dictEntry ⟨"5", "running", "Training", 7⟩,
           CtrlEntry.dictEntry ⟨"6", "pending", "Waiting", 8⟩])
        (fun n => n == "job1-5")).saved
      = some [CtrlEntry.dictEntry ⟨"5", "error", timeoutTerminationMessage, 7⟩,
              CtrlEntry.dictEntry ⟨"6", "pending", "Waiting", 8⟩] :=
  (c1_terminate_marks_error_and_deletes_composite
    ⟨"job1", "h1", "experiment", true, "5", none⟩ (fun n => n == "job1-5")
    [CtrlEntry.dictEntry ⟨"5", "running", "Training", 7⟩,
     CtrlEntry.dictEntry ⟨"6", "pending", "Waiting", 8⟩]
    ⟨"5", "running", "Training", 7⟩
    (by decide) (by decide) rfl (by decide) rfl).1

/-- C1 counterexample: the claim as frozen says the terminated
recommendation is marked `status=failure`; on the embedded code the
persisted entry's status is `"error"`, which differs from `"failure"`. -/
theorem c1_counterexample_status_is_error_not_failure :
    (terminate_timed_out_job
        ⟨"job1", "h1", "experiment", true, "5", none⟩
        (CtrlInfo.listOf [CtrlEntry.dictEntry ⟨"5", "running", "Training", 0⟩])
        (fun _ => true)).saved
      = some [CtrlEntry.dictEntry ⟨"5", "error", timeoutTerminationMessage, 0⟩]
    ∧ ("error" : String) ≠ "failure" := by
  constructor
  · decide
  · decide

/-- C7, the claim as amended.  When every entry of the controller-info
list is a dict, terminating one timed-out recommendation persists exactly
the pointwise image of the original list (same length, same order), and
the pointwise update is the identity on every entry whose id differs
from the terminated recommendation's id — siblings are unmodified. -/
theorem c7_siblings_unmodified
    (info : TimedOutJobInfo) (deleteOk : String → Bool)
    (entries : List CtrlEntry)
    (hj : info.job_id.isEmpty = false) (hh : info.handler_id.isEmpty = false)
    (ha : info.is_automl = true)
    (hdict : ∀ e ∈ entries, isDictEntry e = true)
    (hfound : ∃ r, CtrlEntry.dictEntry r ∈ entries ∧ r.id = info.experiment_number) :
    (terminate_timed_out_job info (CtrlInfo.listOf entries) deleteOk).saved
      = some (entries.map (markEntry info.experiment_number))
    ∧ (entries.map (markEntry info.experiment_number)).length = entries.length
    ∧ ∀ r : Recc, r.id ≠ info.experiment_number →
        markEntry info.experiment_number (CtrlEntry.dictEntry r)
          = CtrlEntry.dictEntry r := by
  have hfoundb : (terminateLoop info.experiment_number entries).2 = true :=
    (terminateLoop_found _ _).mpr hfound
  have hfilter : entries.filter isDictEntry = entries :=
    List.filter_eq_self.mpr hdict
  refine ⟨?_, List.length_map _ _, ?_⟩
  · simp only [terminate_timed_out_job, hj, hh, ha, hfoundb, Bool.or_self,
      Bool.false_or, if_false, ite_true]
    by_cases hdel : deleteOk (info.job_id ++ "-" ++ info.experiment_number) <;>
      simp [hdel, terminateLoop_fst, hfilter]
  · intro r hr
    simp [markEntry, hr]

/-- Witness for the amended C7 theorem: terminating recommendation 5
leaves the pending sibling 6 untouched, in place. -/
theorem c7_siblings_unmodified_witness :
    (terminate_timed_out_job
        ⟨"job1", "h1", "experiment", true, "5", none⟩
        (CtrlInfo.listOf
          [CtrlEntry.dictEntry ⟨"5", "running", "Training", 7⟩,
           CtrlEntry.dictEntry ⟨"6", "pending", "Waiting", 8⟩])
        (fun _ => true)).saved
      = some ([CtrlEntry.dictEntry ⟨"5", "running", "Training", 7⟩,
               CtrlEntry.dictEntry ⟨"6", "pending", "Waiting", 8⟩].map
                (markEntry "5")) :=
  (c7_siblings_unmodified
    ⟨"job1", "h1", "experiment", true, "5", none⟩ (fun _ => true)
    [CtrlEntry.dictEntry ⟨"5", "running", "Training", 7⟩,
     CtrlEntry.dictEntry ⟨"6", "pending", "Waiting", 8⟩]
    (by decide) (by decide) rfl (by decide)
    ⟨⟨"5", "running", "Training", 7⟩, by decide, rfl⟩).1

/-- C7 counterexample: the claim as frozen asserts the persisted list
keeps the same length for every controller-info list; the rebuild loop
silently drops entries that are not dicts, so a list of length 2 with a
non-dict second entry is persisted with length 1. -/
theorem c7_counterexample_nondict_entry_dropped :
    ((terminate_timed_out_job
        ⟨"job1", "h1", "experiment", true, "5", none⟩
        (CtrlInfo.listOf
          [CtrlEntry.dictEntry ⟨"5", "running", "Training", 0⟩,
           CtrlEntry.nonDict 3])
        (fun _ => true)).saved.map List.length)
      = some 1
    ∧ [CtrlEntry.dictEntry (Recc.mk "5" "running" "Training" 0),
       CtrlEntry.nonDict 3].length = 2 := by
  constructor
  · decide
  · decide

/-- C9: on the AutoML error path — controller info that is not a list,
or a list with no dict entry whose id equals the requested experiment
number — `terminate_timed_out_job` returns `False` with no
controller-info persist, no compute-unit deletion request and no status
write. -/
theorem c9_error_path_no_state_change
    (info : TimedOutJobInfo) (controller : CtrlInfo) (deleteOk : String → Bool)
    (ha : info.is_automl = true)
    (hnom : ∀ entries, controller = CtrlInfo.listOf entries →
      ∀ r : Recc, CtrlEntry.dictEntry r ∈ entries →
        r.id ≠ info.experiment_number) :
    terminate_timed_out_job info controller deleteOk
      = ⟨false, none, [], []⟩ := by
  unfold terminate_timed_out_job
  by_cases hempty : (info.job_id.isEmpty || info.handler_id.isEmpty) = true
  · simp [hempty]
  · simp only [hempty, if_false, Bool.not_eq_true] at *
    cases controller with
    | notList t => simp [ha, hempty]
    | listOf entries =>
      have hnf : (terminateLoop info.experiment_number entries).2 = false := by
        rcases h : (terminateLoop info.experiment_number entries).2 with _ | _
        · rfl
        · rcases (terminateLoop_found _ _).mp h with ⟨r, hmem, hid⟩
          exact absurd hid (hnom entries rfl r hmem)
      simp [ha, hempty, hnf]

/-- Witness for C9: a controller-info document that is not a list. -/
theorem c9_error_path_no_state_change_witness :
    terminate_timed_out_job
        ⟨"job1", "h1", "experiment", true, "5", none⟩
        (CtrlInfo.notList 0) (fun _ => true)
      = ⟨false, none, [], []⟩ :=
  c9_error_path_no_state_change
    ⟨"job1", "h1", "experiment", true, "5", none⟩
    (CtrlInfo.notList 0) (fun _ => true) rfl
    (fun entries h => by cases h)

/-! ## Lemmas: `check_job_timeout` -/

/-- C6: for a running-like job (regular job in Running/Pending, or AutoML
experiment in pending/running/started) that has a last status-update
timestamp, the timeout check is exactly the strict comparison
`now − last > timeout_minutes*60`: at `timeout_minutes*60 − 1` seconds of
staleness the job is not reported timed out, at `timeout_minutes*60 + 1`
seconds it is. -/
theorem c6_timeout_boundary_strict
    (info : TimedOutJobInfo) (env : TimeoutEnv) (tm : Nat) (last : Int)
    (hid : info.job_id.isEmpty = false)
    (hlast : env.lastStatusTimestamp = some last)
    (hgate :
      (info.is_automl = false ∧ ∃ jm, env.job_metadata = some jm ∧
        (jm.status = "Running" ∨ jm.status = "Pending")) ∨
      (info.is_automl = true ∧ ∃ st,
        findExpStatus info.experiment_number env.controller = some st ∧
        (st = "pending" ∨ st = "running" ∨ st = "started"))) :
    (∀ now : Int, check_job_timeout info env tm now
      = decide (now - last > (tm : Int) * 60))
    ∧ check_job_timeout info env tm (last + ((tm : Int) * 60 - 1)) = false
    ∧ check_job_timeout info env tm (last + ((tm : Int) * 60 + 1)) = true := by
  have hcore : ∀ now : Int, timeoutElapsedCheck info env tm now
      = decide (now - last > (tm : Int) * 60) := by
    intro now
    simp [timeoutElapsedCheck, hlast]
  have hchk : ∀ now : Int, check_job_timeout info env tm now
      = decide (now - last > (tm : Int) * 60) := by
    intro now
    rcases hgate with ⟨hreg, jm, hjm, hst⟩ | ⟨hauto, st, hfind, hst⟩
    · rcases hst with h | h <;>
        simp [check_job_timeout, hid, hreg, hjm, h, hcore]
    · rcases hst with h | h | h <;>
        simp [check_job_timeout, hid, hauto, hfind, h, hcore]
  refine ⟨hchk, ?_, ?_⟩
  · rw [hchk]
    simp only [decide_eq_false_iff_not]
    omega
  · rw [hchk]
    simp only [decide_eq_true_eq]
    omega

/-- Witness for C6 at a concrete running job, 60-minute timeout. -/
theorem c6_timeout_boundary_strict_witness :
    check_job_timeout ⟨"job1", "h1", "experiment", false, "0", none⟩
        ⟨CtrlInfo.notList 0, some ⟨"Running", none⟩, some 1000⟩ 60
        (1000 + ((60 : Int) * 60 - 1)) = false
    ∧ check_job_timeout ⟨"job1", "h1", "experiment", false, "0", none⟩
        ⟨CtrlInfo.notList 0, some ⟨"Running", none⟩, some 1000⟩ 60
        (1000 + ((60 : Int) * 60 + 1)) = true :=
  ⟨(c6_timeout_boundary_strict
      ⟨"job1", "h1", "experiment", false, "0", none⟩
      ⟨CtrlInfo.notList 0, some ⟨"Running", none⟩, some 1000⟩ 60 1000
      (by decide) rfl
      (Or.inl ⟨rfl, ⟨"Running", none⟩, rfl, Or.inl rfl⟩)).2.1,
   (c6_timeout_boundary_strict
      ⟨"job1", "h1", "experiment", false, "0", none⟩
      ⟨CtrlInfo.notList 0, some ⟨"Running", none⟩, some 1000⟩ 60 1000
      (by decide) rfl
      (Or.inl ⟨rfl, ⟨"Running", none⟩, rfl, Or.inl rfl⟩)).2.2⟩

/-! ## Lemmas: cancel / pause -/

/-- C5, the claim as amended.  For a non-AutoML job whose current status
is in {Error, Done, Canceled, Canceling, Pausing, Paused}, `job_cancel`
returns 200 with no compute-unit stop call and no status write, and a
second call on the resulting state again returns 200 with no effects;
`job_pause` behaves the same provided the job's action is one of
train/distill/quantize/retrain, while for any other action it returns
404, still with no stop call and no status write.  (For AutoML jobs the
no-op does not apply: cancel/pause always write the transitional status
and invoke the AutoML stop, as the counterexample shows.) -/
theorem c5_cancel_pause_noop_idempotent
    (env : CancelEnv) (job_id : String) (hm : CPHandlerMeta) (jm : CPJobMeta)
    (hauto : env.isAutoml = false)
    (hhm : env.handlerMeta = some hm)
    (hmem : hm.jobsKeys.contains job_id = true)
    (hacc : env.writeAccess = true)
    (hjm : env.jobMeta = some jm)
    (hst : noOpStatuses.contains jm.status = true) :
    job_cancel env job_id = (200, [])
    ∧ job_cancel (applyCancelEffects env (job_cancel env job_id).2) job_id
        = (200, [])
    ∧ (pausableActions.contains jm.action = true →
        job_pause env job_id = (200, [])
        ∧ job_pause (applyCancelEffects env (job_pause env job_id).2) job_id
            = (200, []))
    ∧ (pausableActions.contains jm.action = false →
        job_pause env job_id = (404, [])) := by
  have hmem1 : job_id ∈ hm.jobsKeys := by simpa using hmem
  have hst1 : jm.status ∈ noOpStatuses := by simpa using hst
  have hc : job_cancel env job_id = (200, []) := by
    simp [job_cancel, hhm, hmem1, hacc, hjm, hauto, hst1]
  refine ⟨hc, ?_, ?_, ?_⟩
  · rw [hc]
    exact hc
  · intro hp
    have hp1 : jm.action ∈ pausableActions := by simpa using hp
    have hpz : job_pause env job_id = (200, []) := by
      simp [job_pause, hhm, hacc, hjm, hauto, hp1, hst1]
    refine ⟨hpz, ?_⟩
    rw [hpz]
    exact hpz
  · intro hp
    have hp1 : jm.action ∉ pausableActions := by simpa using hp
    simp [job_pause, hhm, hacc, hjm, hauto, hp1]

/-- Witness for the amended C5 theorem: a Done train job. -/
theorem c5_cancel_pause_noop_idempotent_witness :
    job_cancel
        ⟨some ⟨["j1"], "u1"⟩, true, some ⟨"Done", "train", false⟩, false, 200,
          false, fun _ => "Done", 1, false⟩ "j1" = (200, [])
    ∧ job_pause
        ⟨some ⟨["j1"], "u1"⟩, true, some ⟨"Done", "train", false⟩, false, 200,
          false, fun _ => "Done", 1, false⟩ "j1" = (200, []) := by
  have h := c5_cancel_pause_noop_idempotent
    ⟨some ⟨["j1"], "u1"⟩, true, some ⟨"Done", "train", false⟩, false, 200,
      false, fun _ => "Done", 1, false⟩ "j1"
    ⟨["j1"], "u1"⟩ ⟨"Done", "train", false⟩
    rfl rfl (by decide) rfl rfl (by decide)
  exact ⟨h.1, (h.2.2.1 (by decide)).1⟩

/-- C5 counterexample: the claim as frozen quantifies over every job.
For an AutoML job whose status is already Done, cancel still performs a
status write (the AutoML branch runs before the no-op status check), and
for a non-AutoML Done job whose action is `export`, pause returns 404
rather than 200 (the action gate runs before the no-op status check). -/
theorem c5_counterexample_automl_and_action_gate :
    CancelEffect.statusWrite "Canceling" ∈
      (job_cancel
        ⟨some ⟨["j1"], "u1"⟩, true, some ⟨"Done", "train", false⟩, true, 200,
          false, fun _ => "Done", 1, false⟩ "j1").2
    ∧ (job_pause
        ⟨some ⟨["j1"], "u1"⟩, true, some ⟨"Done", "export", false⟩, false, 200,
          false, fun _ => "Done", 1, false⟩ "j1").1 = 404 := by
  constructor
  · decide
  · decide

/-! ## Lemmas: recovery -/

theorem restartOneWithMeta_effect_ids (env : RecoveryEnv) (b : Bool)
    (jd : PendingJobDict) (kind handler_id : String) (hm : HandlerMeta) :
    (∀ x ∈ (restartOneWithMeta env b jd kind handler_id hm).1.monitorsLaunched,
      x = jd.id)
    ∧ (∀ x ∈ (restartOneWithMeta env b jd kind handler_id hm).1.cleared,
      x = jd.id) := by
  unfold restartOneWithMeta
  rcases h2 : env.handlerMeta handler_id (kind ++ "s") with _ | m <;>
    constructor <;> intro x hx <;> repeat' split at hx <;> simp_all

theorem restartOneWithMeta_enqueued (env : RecoveryEnv) (b : Bool)
    (jd : PendingJobDict) (kind handler_id : String) (hm : HandlerMeta)
    (hse : stillExistsEnv env jd.id = true) :
    (restartOneWithMeta env b jd kind handler_id hm).1.monitorsLaunched = []
    ∧ (restartOneWithMeta env b jd kind handler_id hm).1.cleared = [] := by
  unfold restartOneWithMeta
  constructor <;> split <;> simp_all

theorem restartOne_effect_ids (env : RecoveryEnv) (b : Bool)
    (jd : PendingJobDict) :
    (∀ x ∈ (restartOne env b jd).1.monitorsLaunched, x = jd.id)
    ∧ (∀ x ∈ (restartOne env b jd).1.cleared, x = jd.id) := by
  unfold restartOne
  rcases hk : restartKindHandler jd with _ | ⟨kind, handler_id⟩
  · simp
  · simp only [hk]
    rcases hmm : env.handlerMeta handler_id kind with _ | hm
    · simp
    · simp only [hmm]
      exact restartOneWithMeta_effect_ids env b jd kind handler_id hm

theorem restartOne_enqueued (env : RecoveryEnv) (b : Bool)
    (jd : PendingJobDict) (hse : stillExistsEnv env jd.id = true) :
    (restartOne env b jd).1.monitorsLaunched = []
    ∧ (restartOne env b jd).1.cleared = [] := by
  unfold restartOne
  rcases hk : restartKindHandler jd with _ | ⟨kind, handler_id⟩
  · simp
  · simp only [hk]
    rcases hmm : env.handlerMeta handler_id kind with _ | hm
    · simp
    · simp only [hmm]
      exact restartOneWithMeta_enqueued env b jd kind handler_id hm hse

/-- C8: recovery never re-attaches monitoring to a job whose persisted
record still has `workflow_status == enqueued`: no monitoring task is
launched for it and its status history is not cleared, for any
pending-jobs list and any initial brain-restart flag. -/
theorem c8_recovery_non_duplication (env : RecoveryEnv)
    (jobs : List PendingJobDict) (jid : String)
    (h : env.jobWorkflowStatus jid = some "enqueued") :
    ∀ b, jid ∉ (restart_threads env jobs b).monitorsLaunched
       ∧ jid ∉ (restart_threads env jobs b).cleared := by
  induction jobs with
  | nil =>
    intro b
    simp [restart_threads]
  | cons jd rest ih =>
    intro b
    simp only [restart_threads, List.mem_append]
    have hall := restartOne_effect_ids env b jd
    by_cases hid : jd.id = jid
    · have hse : stillExistsEnv env jd.id = true := by
        simp [stillExistsEnv, hid, h]
      have hempty := restartOne_enqueued env b jd hse
      constructor
      · rintro (hmem | hmem)
        · rw [hempty.1] at hmem
          exact absurd hmem (List.not_mem_nil _)
        · exact (ih (restartOne env b jd).2).1 hmem
      · rintro (hmem | hmem)
        · rw [hempty.2] at hmem
          exact absurd hmem (List.not_mem_nil _)
        · exact (ih (restartOne env b jd).2).2 hmem
    · constructor
      · rintro (hmem | hmem)
        · exact hid ((hall.1 jid hmem).symm)
        · exact (ih (restartOne env b jd).2).1 hmem
      · rintro (hmem | hmem)
        · exact hid ((hall.2 jid hmem).symm)
        · exact (ih (restartOne env b jd).2).2 hmem

/-- Witness for C8: a one-job pending list whose record is enqueued. -/
theorem c8_recovery_non_duplication_witness :
    "j1" ∉ (restart_threads
        ⟨fun _ _ => some ⟨"u1", some "org", 1, false, "detectnet"⟩,
         fun _ => some "enqueued", fun _ _ => true, fun _ => []⟩
        [⟨"j1", "p1", "train", "name", some "org", "plat",
          some "h1", none, none⟩] false).monitorsLaunched
    ∧ "j1" ∉ (restart_threads
        ⟨fun _ _ => some ⟨"u1", some "org", 1, false, "detectnet"⟩,
         fun _ => some "enqueued", fun _ _ => true, fun _ => []⟩
        [⟨"j1", "p1", "train", "name", some "org", "plat",
          some "h1", none, none⟩] false).cleared :=
  c8_recovery_non_duplication
    ⟨fun _ _ => some ⟨"u1", some "org", 1, false, "detectnet"⟩,
     fun _ => some "enqueued", fun _ _ => true, fun _ => []⟩
    [⟨"j1", "p1", "train", "name", some "org", "plat", some "h1", none, none⟩]
    "j1" rfl false

/-! ## Lemmas: the job store -/

theorem find?_map_preserve (g : JobRecord → JobRecord)
    (hg : ∀ r, (g r).job.id = r.job.id) (db : JobsDb) (id : String) :
    List.find? (fun r => r.job.id == id) (db.map g)
      = (List.find? (fun r => r.job.id == id) db).map g := by
  rw [List.find?_map]
  have hpred : ((fun r => r.job.id == id) ∘ g) = (fun r => r.job.id == id) := by
    funext r
    simp [Function.comp, hg r]
  rw [hpred]

theorem setMessage_id_preserve (i : String) (m : String) (r : JobRecord) :
    ((if r.job.id == i then { r with message := m } else r) : JobRecord).job.id
      = r.job.id := by
  split <;> rfl

theorem setWorkflowStatus_id_preserve (x st : String) (r : JobRecord) :
    ((if r.job.id == x then { r with workflow_status := st } else r) :
      JobRecord).job.id = r.job.id := by
  split <;> rfl

theorem statusOf_setMessage (db : JobsDb) (i m id : String) :
    statusOf (setMessage db i m) id = statusOf db id := by
  unfold statusOf setMessage
  rw [find?_map_preserve _ (setMessage_id_preserve i m) db id, Option.map_map]
  congr 1
  funext r
  simp only [Function.comp]
  split <;> rfl

theorem messageOf_setWorkflowStatus (db : JobsDb) (x st id : String) :
    messageOf (setWorkflowStatus db x st) id = messageOf db id := by
  unfold messageOf setWorkflowStatus
  rw [find?_map_preserve _ (setWorkflowStatus_id_preserve x st) db id,
    Option.map_map]
  congr 1
  funext r
  simp only [Function.comp]
  split <;> rfl

theorem messageOf_setMessage_other (db : JobsDb) (i m id : String)
    (h : i ≠ id) : messageOf (setMessage db i m) id = messageOf db id := by
  unfold messageOf setMessage
  rw [find?_map_preserve _ (setMessage_id_preserve i m) db id, Option.map_map]
  rcases hf : List.find? (fun r => r.job.id == id) db with _ | r
  · simp [hf]
  · have hp := List.find?_some hf
    have hid : r.job.id = id := by simpa using hp
    simp [hf, Function.comp, hid, Ne.symm h]

theorem messageOf_setMessage_self (db : JobsDb) (i m : String)
    (hex : idExists db i = true) :
    messageOf (setMessage db i m) i = some m := by
  unfold messageOf setMessage
  rw [find?_map_preserve _ (setMessage_id_preserve i m) db i, Option.map_map]
  rcases hf : List.find? (fun r => r.job.id == i) db with _ | r
  · rw [idExists, hf] at hex
    cases hex
  · have hp : r.job.id = i := by simpa using List.find?_some hf
    simp [hf, Function.comp, hp]

theorem idExists_eq_isSome_statusOf (db : JobsDb) (id : String) :
    idExists db id = (statusOf db id).isSome := by
  unfold idExists statusOf
  rcases hf : List.find? (fun r => r.job.id == id) db with _ | r <;> simp [hf]

theorem statusOf_eq_dequeued (db : JobsDb) (id : String)
    (hall : allDequeued db id) (hex : idExists db id = true) :
    statusOf db id = some "dequeued" := by
  unfold statusOf
  rcases hf : List.find? (fun r => r.job.id == id) db with _ | r
  · rw [idExists, hf] at hex
    cases hex
  · have hp := List.find?_some hf
    have hmem : r ∈ db := List.mem_of_find?_eq_some hf
    have hdq := hall r hmem (by simpa using hp)
    simp [hf, hdq]

theorem allDequeued_setMessage (db : JobsDb) (i m id : String)
    (h : allDequeued db id) : allDequeued (setMessage db i m) id := by
  intro r1 hr1 hid
  rcases List.mem_map.mp hr1 with ⟨r, hr, heq⟩
  subst heq
  have hid0 : r.job.id = id := by
    have := setMessage_id_preserve i m r
    rw [this] at hid
    exact hid
  have := h r hr hid0
  split <;> simpa using this

theorem allDequeued_setWorkflowStatus_dequeued (db : JobsDb) (x id : String)
    (h : allDequeued db id) :
    allDequeued (setWorkflowStatus db x "dequeued") id := by
  intro r1 hr1 hid
  rcases List.mem_map.mp hr1 with ⟨r, hr, heq⟩
  subst heq
  have hid0 : r.job.id = id := by
    have := setWorkflowStatus_id_preserve x "dequeued" r
    rw [this] at hid
    exact hid
  have := h r hr hid0
  split <;> simp [this]

theorem allDequeued_setWorkflowStatus_self (db : JobsDb) (id : String) :
    allDequeued (setWorkflowStatus db id "dequeued") id := by
  intro r1 hr1 hid
  rcases List.mem_map.mp hr1 with ⟨r, hr, heq⟩
  subst heq
  have hid0 : r.job.id = id := by
    have := setWorkflowStatus_id_preserve id "dequeued" r
    rw [this] at hid
    exact hid
  simp [hid0]

theorem idExists_setMessage (db : JobsDb) (i m id : String) :
    idExists (setMessage db i m) id = idExists db id := by
  unfold idExists setMessage
  rw [find?_map_preserve _ (setMessage_id_preserve i m) db id]
  rcases hf : List.find? (fun r => r.job.id == id) db with _ | r <;> simp [hf]

theorem idExists_setWorkflowStatus (db : JobsDb) (x st id : String) :
    idExists (setWorkflowStatus db x st) id = idExists db id := by
  unfold idExists setWorkflowStatus
  rw [find?_map_preserve _ (setWorkflowStatus_id_preserve x st) db id]
  rcases hf : List.find? (fun r => r.job.id == id) db with _ | r <;> simp [hf]

theorem dequeueAll_cons (j : WJob) (rest : List WJob) (db : JobsDb) :
    dequeueAll (j :: rest) db
      = dequeueAll rest (setWorkflowStatus db j.id "dequeued") := rfl

theorem dequeueAll_allDequeued_preserve (dq : List WJob) (db : JobsDb)
    (id : String) (h : allDequeued db id) :
    allDequeued (dequeueAll dq db) id := by
  induction dq generalizing db with
  | nil => exact h
  | cons j rest ih =>
    rw [dequeueAll_cons]
    exact ih _ (allDequeued_setWorkflowStatus_dequeued db j.id id h)

theorem dequeueAll_allDequeued_mem (dq : List WJob) (db : JobsDb)
    (id : String) (h : ∃ x ∈ dq, x.id = id) :
    allDequeued (dequeueAll dq db) id := by
  induction dq generalizing db with
  | nil =>
    rcases h with ⟨x, hx, _⟩
    exact absurd hx (List.not_mem_nil _)
  | cons j rest ih =>
    rcases h with ⟨x, hx, hxid⟩
    rw [dequeueAll_cons]
    rcases List.mem_cons.mp hx with heq | hmem
    · subst heq
      subst hxid
      exact dequeueAll_allDequeued_preserve rest _ _
        (allDequeued_setWorkflowStatus_self db x.id)
    · exact ih _ ⟨x, hmem, hxid⟩

theorem dequeueAll_idExists (dq : List WJob) (db : JobsDb) (id : String) :
    idExists (dequeueAll dq db) id = idExists db id := by
  induction dq generalizing db with
  | nil => rfl
  | cons j rest ih =>
    rw [dequeueAll_cons, ih, idExists_setWorkflowStatus]

theorem dequeueAll_messageOf (dq : List WJob) (db : JobsDb) (id : String) :
    messageOf (dequeueAll dq db) id = messageOf db id := by
  induction dq generalizing db with
  | nil => rfl
  | cons j rest ih =>
    rw [dequeueAll_cons, ih, messageOf_setWorkflowStatus]

/-! ## Lemmas: the scan -/

theorem scanJobs_statusOf (c : WJob → WDependency → Bool × String)
    (e : WJob → Bool) (l : List WJob) (db : JobsDb) (id : String) :
    statusOf (scanJobs c e l db).1 id = statusOf db id := by
  induction l generalizing db with
  | nil => rfl
  | cons j rest ih =>
    simp only [scanJobs]
    rw [ih, statusOf_setMessage]

theorem scanJobs_idExists (c : WJob → WDependency → Bool × String)
    (e : WJob → Bool) (l : List WJob) (db : JobsDb) (id : String) :
    idExists (scanJobs c e l db).1 id = idExists db id := by
  rw [idExists_eq_isSome_statusOf, idExists_eq_isSome_statusOf,
    scanJobs_statusOf]

theorem scanJobs_allDequeued (c : WJob → WDependency → Bool × String)
    (e : WJob → Bool) (l : List WJob) (db : JobsDb) (id : String)
    (h : allDequeued db id) : allDequeued (scanJobs c e l db).1 id := by
  induction l generalizing db with
  | nil => exact h
  | cons j rest ih =>
    simp only [scanJobs]
    exact ih _ (allDequeued_setMessage _ _ _ _ h)

theorem scanJobs_dq_subset (c : WJob → WDependency → Bool × String)
    (e : WJob → Bool) (l : List WJob) (db : JobsDb) :
    ∀ x ∈ (scanJobs c e l db).2.1, x ∈ l := by
  induction l generalizing db with
  | nil =>
    intro x hx
    exact absurd hx (List.not_mem_nil _)
  | cons j rest ih =>
    intro x hx
    simp only [scanJobs, List.mem_append] at hx
    rcases hx with (hx | hx) | hx
    · split at hx
      · exact List.mem_cons.mpr (Or.inl (List.mem_singleton.mp hx))
      · exact absurd hx (List.not_mem_nil _)
    · split at hx
      · exact List.mem_cons.mpr (Or.inl (List.mem_singleton.mp hx))
      · exact absurd hx (List.not_mem_nil _)
    · exact List.mem_cons_of_mem _ (ih _ x hx)

theorem scanJobs_disp_subset (c : WJob → WDependency → Bool × String)
    (e : WJob → Bool) (l : List WJob) (db : JobsDb) :
    ∀ x ∈ (scanJobs c e l db).2.2, x ∈ l := by
  induction l generalizing db with
  | nil =>
    intro x hx
    exact absurd hx (List.not_mem_nil _)
  | cons j rest ih =>
    intro x hx
    simp only [scanJobs, List.mem_append] at hx
    rcases hx with hx | hx
    · split at hx
      · exact List.mem_cons.mpr (Or.inl (List.mem_singleton.mp hx))
      · exact absurd hx (List.not_mem_nil _)
    · exact List.mem_cons_of_mem _ (ih _ x hx)

theorem scanJobs_disp_mem_dq (c : WJob → WDependency → Bool × String)
    (e : WJob → Bool) (l : List WJob) (db : JobsDb) :
    ∀ x ∈ (scanJobs c e l db).2.2, x ∈ (scanJobs c e l db).2.1 := by
  induction l generalizing db with
  | nil =>
    intro x hx
    exact absurd hx (List.not_mem_nil _)
  | cons j rest ih =>
    intro x hx
    simp only [scanJobs, List.mem_append] at hx ⊢
    rcases hx with hx | hx
    · exact Or.inl (Or.inr hx)
    · exact Or.inr (ih _ x hx)

theorem scanJobs_disp_all_met (c : WJob → WDependency → Bool × String)
    (e : WJob → Bool) (l : List WJob) (db : JobsDb) :
    ∀ x ∈ (scanJobs c e l db).2.2,
      (depLoop c x x.dependencies true "").all_met = true := by
  induction l generalizing db with
  | nil =>
    intro x hx
    exact absurd hx (List.not_mem_nil _)
  | cons j rest ih =>
    intro x hx
    simp only [scanJobs, List.mem_append] at hx
    rcases hx with hx | hx
    · split at hx
      · rcases List.mem_singleton.mp hx with rfl
        rename_i hdisp
        simp only [Bool.and_eq_true] at hdisp
        exact hdisp.1.1
      · exact absurd hx (List.not_mem_nil _)
    · exact ih _ x hx

theorem scanJobs_broke_mem_dq (c : WJob → WDependency → Bool × String)
    (e : WJob → Bool) (l : List WJob) (db : JobsDb) (j : WJob)
    (hj : j ∈ l) (hb : (depLoop c j j.dependencies true "").broke = true) :
    j ∈ (scanJobs c e l db).2.1 := by
  induction l generalizing db with
  | nil => exact absurd hj (List.not_mem_nil _)
  | cons x rest ih =>
    simp only [scanJobs, List.mem_append]
    rcases List.mem_cons.mp hj with heq | hmem
    · subst heq
      rw [hb]
      exact Or.inl (Or.inl (List.mem_singleton.mpr rfl))
    · exact Or.inr (ih _ hmem)

theorem scanJobs_messageOf_untouched (c : WJob → WDependency → Bool × String)
    (e : WJob → Bool) (l : List WJob) (db : JobsDb) (id : String)
    (h : ∀ y ∈ l, y.id ≠ id) :
    messageOf (scanJobs c e l db).1 id = messageOf db id := by
  induction l generalizing db with
  | nil => rfl
  | cons j rest ih =>
    simp only [scanJobs]
    rw [ih _ (fun y hy => h y (List.mem_cons_of_mem _ hy)),
      messageOf_setMessage_other _ _ _ _ (h j (List.mem_cons_self _ _))]

theorem scanJobs_messageOf (c : WJob → WDependency → Bool × String)
    (e : WJob → Bool) (l : List WJob) (db : JobsDb) (j : WJob)
    (hj : j ∈ l) (hnd : (l.map WJob.id).Nodup)
    (hex : idExists db j.id = true) :
    messageOf (scanJobs c e l db).1 j.id
      = some (removeLastOccurrence reasonSep
          (depLoop c j j.dependencies true "").pending) := by
  induction l generalizing db with
  | nil => exact absurd hj (List.not_mem_nil _)
  | cons x rest ih =>
    simp only [List.map_cons, List.nodup_cons] at hnd
    simp only [scanJobs]
    rcases List.mem_cons.mp hj with heq | hmem
    · subst heq
      have hothers : ∀ y ∈ rest, y.id ≠ j.id := by
        intro y hy he
        exact hnd.1 (he ▸ List.mem_map_of_mem WJob.id hy)
      rw [scanJobs_messageOf_untouched c e rest _ _ hothers]
      exact messageOf_setMessage_self db j.id _ hex
    · have hxj : x.id ≠ j.id := by
        intro he
        exact hnd.1 (he ▸ List.mem_map_of_mem WJob.id hmem)
      refine ih _ hmem hnd.2 ?_
      rw [idExists_setMessage]
      exact hex

/-! ## Lemmas: ordering and the queue -/

theorem jobKeyLE_trans (a b c : WJob) (h1 : jobKeyLE a b = true)
    (h2 : jobKeyLE b c = true) : jobKeyLE a c = true := by
  simp only [jobKeyLE, Bool.or_eq_true, Bool.and_eq_true, decide_eq_true_eq,
    beq_iff_eq] at *
  omega

theorem jobKeyLE_total (a b : WJob) : (jobKeyLE a b || jobKeyLE b a) = true := by
  simp only [jobKeyLE, Bool.or_eq_true, Bool.and_eq_true, decide_eq_true_eq,
    beq_iff_eq]
  omega

theorem sortJobs_perm (l : List WJob) : (sortJobs l).Perm l :=
  List.mergeSort_perm l jobKeyLE

theorem sortJobs_mem (l : List WJob) (x : WJob) :
    x ∈ sortJobs l ↔ x ∈ l := (sortJobs_perm l).mem_iff

theorem sortJobs_sorted (l : List WJob) :
    List.Pairwise (fun a b => jobKeyLE a b = true) (sortJobs l) :=
  List.sorted_mergeSort (fun a b c => jobKeyLE_trans a b c)
    (fun a b => jobKeyLE_total a b) l

theorem sortJobs_singleton (j : WJob) : sortJobs [j] = [j] :=
  List.mergeSort_singleton j

theorem mem_queued_iff (db : JobsDb) (x : WJob) :
    x ∈ get_all_queued_jobs db
      ↔ ∃ r ∈ db, r.workflow_status = "enqueued" ∧ r.job = x := by
  unfold get_all_queued_jobs
  constructor
  · intro hx
    rcases List.mem_map.mp hx with ⟨r, hr, hjob⟩
    rcases List.mem_filter.mp hr with ⟨hmem, hws⟩
    exact ⟨r, hmem, by simpa using hws, hjob⟩
  · rintro ⟨r, hmem, hws, hjob⟩
    exact List.mem_map.mpr ⟨r, List.mem_filter.mpr ⟨hmem, by simpa using hws⟩, hjob⟩

theorem queued_idExists (db : JobsDb) (x : WJob)
    (hx : x ∈ get_all_queued_jobs db) : idExists db x.id = true := by
  rcases (mem_queued_iff db x).mp hx with ⟨r, hr, _, hjob⟩
  unfold idExists
  exact (List.find?_isSome).mpr ⟨r, hr, by simp [hjob]⟩

theorem allDequeued_not_queued (db : JobsDb) (id : String)
    (hall : allDequeued db id) :
    ∀ x ∈ get_all_queued_jobs db, x.id ≠ id := by
  intro x hx he
  rcases (mem_queued_iff db x).mp hx with ⟨r, hr, hws, hjob⟩
  have hdq := hall r hr (by rw [hjob]; exact he)
  rw [hdq] at hws
  exact absurd hws (by decide)

/-! ## Lemmas: one scheduler tick -/

theorem tick_dispatched_invariant (c : WJob → WDependency → Bool × String)
    (e : WJob → Bool) (db : JobsDb) (j : WJob)
    (hdisp : j ∈ (scan_for_jobs_tick c e db).2) :
    allDequeued (scan_for_jobs_tick c e db).1 j.id
    ∧ idExists (scan_for_jobs_tick c e db).1 j.id = true := by
  simp only [scan_for_jobs_tick] at hdisp ⊢
  have hdq := scanJobs_disp_mem_dq c e (sortJobs (get_all_queued_jobs db)) db
    j hdisp
  constructor
  · exact dequeueAll_allDequeued_mem _ _ _ ⟨j, hdq, rfl⟩
  · rw [dequeueAll_idExists, scanJobs_idExists]
    exact queued_idExists db j ((sortJobs_mem _ _).mp
      (scanJobs_disp_subset c e _ db j hdisp))

theorem tick_preserves_dequeued (c : WJob → WDependency → Bool × String)
    (e : WJob → Bool) (db : JobsDb) (id : String)
    (hall : allDequeued db id) (hex : idExists db id = true) :
    (allDequeued (scan_for_jobs_tick c e db).1 id
      ∧ idExists (scan_for_jobs_tick c e db).1 id = true)
    ∧ (∀ x ∈ get_all_queued_jobs db, x.id ≠ id)
    ∧ (∀ x ∈ (scan_for_jobs_tick c e db).2, x.id ≠ id) := by
  have hq := allDequeued_not_queued db id hall
  refine ⟨⟨?_, ?_⟩, hq, ?_⟩
  · simp only [scan_for_jobs_tick]
    exact dequeueAll_allDequeued_preserve _ _ _
      (scanJobs_allDequeued _ _ _ _ _ hall)
  · simp only [scan_for_jobs_tick]
    rw [dequeueAll_idExists, scanJobs_idExists]
    exact hex
  · intro x hx
    simp only [scan_for_jobs_tick] at hx
    exact hq x ((sortJobs_mem _ _).mp (scanJobs_disp_subset _ _ _ _ x hx))

/-- C2: a job successfully dispatched in some tick has
`workflow_status == dequeued` in the store after that tick and after
every later tick, is never again part of the enqueued set loaded into
the priority queue, and is never dispatched again — for every dependency
checker (in particular one whose dependencies are always met) and every
execution outcome. -/
theorem c2_at_most_once_dispatch (c : WJob → WDependency → Bool × String)
    (e : WJob → Bool) (db : JobsDb) (j : WJob)
    (hdisp : j ∈ (scan_for_jobs_tick c e db).2) :
    ∀ n : Nat,
      statusOf (ticksAfter c e (scan_for_jobs_tick c e db).1 n) j.id
        = some "dequeued"
      ∧ (∀ x ∈ get_all_queued_jobs
            (ticksAfter c e (scan_for_jobs_tick c e db).1 n), x.id ≠ j.id)
      ∧ (∀ x ∈ (scan_for_jobs_tick c e
            (ticksAfter c e (scan_for_jobs_tick c e db).1 n)).2,
          x.id ≠ j.id) := by
  have hinv : ∀ n,
      allDequeued (ticksAfter c e (scan_for_jobs_tick c e db).1 n) j.id
      ∧ idExists (ticksAfter c e (scan_for_jobs_tick c e db).1 n) j.id
          = true := by
    intro n
    induction n with
    | zero => exact tick_dispatched_invariant c e db j hdisp
    | succ k ih => exact (tick_preserves_dequeued c e _ j.id ih.1 ih.2).1
  intro n
  have hi := hinv n
  have step := tick_preserves_dequeued c e _ j.id hi.1 hi.2
  exact ⟨statusOf_eq_dequeued _ _ hi.1 hi.2, step.2.1, step.2.2⟩

/-- Witness for C2: a single enqueued job with no dependencies is
dispatched on the first tick and remains dequeued two ticks later. -/
theorem c2_at_most_once_dispatch_witness :
    (⟨"j1", 1, 0, "h1", "experiment", "train", []⟩ : WJob)
      ∈ (scan_for_jobs_tick (fun _ _ => (true, "")) (fun _ => true)
          [⟨⟨"j1", 1, 0, "h1", "experiment", "train", []⟩, "enqueued", ""⟩]).2
    ∧ statusOf
        (ticksAfter (fun _ _ => (true, "")) (fun _ => true)
          (scan_for_jobs_tick (fun _ _ => (true, "")) (fun _ => true)
            [⟨⟨"j1", 1, 0, "h1", "experiment", "train", []⟩, "enqueued", ""⟩]).1
          2)
        "j1" = some "dequeued" := by
  have hq : get_all_queued_jobs
      [⟨⟨"j1", 1, 0, "h1", "experiment", "train", []⟩, "enqueued", ""⟩]
      = [⟨"j1", 1, 0, "h1", "experiment", "train", []⟩] := by decide
  have hdisp : (⟨"j1", 1, 0, "h1", "experiment", "train", []⟩ : WJob)
      ∈ (scan_for_jobs_tick (fun _ _ => (true, "")) (fun _ => true)
          [⟨⟨"j1", 1, 0, "h1", "experiment", "train", []⟩, "enqueued", ""⟩]).2 := by
    simp only [scan_for_jobs_tick, hq, sortJobs_singleton]
    decide
  exact ⟨hdisp,
    (c2_at_most_once_dispatch (fun _ _ => (true, "")) (fun _ => true)
      [⟨⟨"j1", 1, 0, "h1", "experiment", "train", []⟩, "enqueued", ""⟩]
      ⟨"j1", 1, 0, "h1", "experiment", "train", []⟩ hdisp 2).1⟩

/-- C3: the evaluation order of one tick is a permutation of the
enqueued jobs that is sorted by `(priority asc, created_on asc)`, and no
non-key field influences it: rewriting every job with any function that
preserves `priority` and `created_on` commutes with the ordering. -/
theorem c3_tick_order_by_priority_created_on (db : JobsDb) (f : WJob → WJob)
    (hf : ∀ x, (f x).priority = x.priority ∧ (f x).created_on = x.created_on) :
    (sortJobs (get_all_queued_jobs db)).Perm (get_all_queued_jobs db)
    ∧ List.Pairwise (fun a b => jobKeyLE a b = true)
        (sortJobs (get_all_queued_jobs db))
    ∧ sortJobs ((get_all_queued_jobs db).map f)
        = (sortJobs (get_all_queued_jobs db)).map f := by
  refine ⟨sortJobs_perm _, sortJobs_sorted _, ?_⟩
  unfold sortJobs
  have h : ∀ a ∈ get_all_queued_jobs db, ∀ b ∈ get_all_queued_jobs db,
      jobKeyLE a b = jobKeyLE (f a) (f b) := by
    intro a _ b _
    simp [jobKeyLE, (hf a).1, (hf a).2, (hf b).1, (hf b).2]
  exact (List.map_mergeSort h).symm

/-- Witness for C3 on a two-record store, with a rewrite of the `action`
field as the key-preserving function. -/
theorem c3_tick_order_by_priority_created_on_witness :
    (∀ x : WJob, ((fun y : WJob => { y with action := "export" }) x).priority
        = x.priority
      ∧ ((fun y : WJob => { y with action := "export" }) x).created_on
        = x.created_on)
    ∧ sortJobs ((get_all_queued_jobs
          [⟨⟨"j1", 1, 0, "h1", "experiment", "train", []⟩, "enqueued", ""⟩,
           ⟨⟨"j2", 0, 5, "h1", "experiment", "train", []⟩, "enqueued", ""⟩]).map
            (fun y : WJob => { y with action := "export" }))
        = (sortJobs (get_all_queued_jobs
            [⟨⟨"j1", 1, 0, "h1", "experiment", "train", []⟩, "enqueued", ""⟩,
             ⟨⟨"j2", 0, 5, "h1", "experiment", "train", []⟩, "enqueued", ""⟩])).map
            (fun y : WJob => { y with action := "export" }) :=
  ⟨fun _ => ⟨rfl, rfl⟩,
   (c3_tick_order_by_priority_created_on
      [⟨⟨"j1", 1, 0, "h1", "experiment", "train", []⟩, "enqueued", ""⟩,
       ⟨⟨"j2", 0, 5, "h1", "experiment", "train", []⟩, "enqueued", ""⟩]
      (fun y : WJob => { y with action := "export" })
      (fun _ => ⟨rfl, rfl⟩)).2.2⟩

/-! ## Lemmas: dependency loop and the propagated-failure short circuit -/

theorem dependency_check_modelled_met_msg (env : DepEnv) (j : WJob)
    (d : WDependency) :
    (dependency_check_modelled env j d).1 = true →
      (dependency_check_modelled env j d).2 = "" := by
  unfold dependency_check_modelled
  repeat' split
  all_goals intro hmet
  all_goals simp_all

theorem dependency_check_modelled_pattern_unmet (env : DepEnv) (j : WJob)
    (d : WDependency)
    (h : erroredPattern (dependency_check_modelled env j d).2 = true) :
    (dependency_check_modelled env j d).1 = false := by
  cases hb : (dependency_check_modelled env j d).1 with
  | false => rfl
  | true =>
    have hmsg := dependency_check_modelled_met_msg env j d hb
    rw [hmsg] at h
    exact absurd h (by decide)

theorem depLoop_first_pattern (c : WJob → WDependency → Bool × String)
    (j : WJob)
    (hcu : ∀ d, erroredPattern (c j d).2 = true → (c j d).1 = false) :
    ∀ (pre : List WDependency) (d : WDependency) (post : List WDependency)
      (am : Bool) (pending : String),
      (∀ x ∈ pre, erroredPattern (c j x).2 = false) →
      erroredPattern (c j d).2 = true →
      (depLoop c j (pre ++ d :: post) am pending).broke = true
      ∧ (depLoop c j (pre ++ d :: post) am pending).all_met = false
      ∧ (depLoop c j (pre ++ d :: post) am pending).evaluated
          = pre.length + 1 := by
  intro pre
  induction pre with
  | nil =>
    intro d post am pending _ hd
    simp [depLoop, hd, hcu d hd]
  | cons x pre1 ih =>
    intro d post am pending hpre hd
    have hx : erroredPattern (c j x).2 = false :=
      hpre x (List.mem_cons_self _ _)
    have ih2 := ih d post (if (c j x).1 then am else false)
      (if (c j x).1 then pending else pending ++ (c j x).2 ++ reasonSep)
      (fun y hy => hpre y (List.mem_cons_of_mem _ hy)) hd
    simp only [List.cons_append, depLoop, hx, Bool.false_eq_true, if_false]
    refine ⟨ih2.1, ih2.2.1, ?_⟩
    simp only [List.length_cons, List.append_eq]
    rw [ih2.2.2]

/-- C4: with the spec-modelled resolvers, if an enqueued job's
dependency list splits as `pre ++ d :: post` where `d` is the first
dependency whose report matches "Parent job … errored out", then after
the tick the job's `workflow_status` is `dequeued`, the job is not
dispatched, and exactly `pre.length + 1` dependencies were evaluated —
`post` is never consulted. -/
theorem c4_propagated_failure_short_circuit (env : DepEnv)
    (e : WJob → Bool) (db : JobsDb) (j : WJob)
    (pre : List WDependency) (d : WDependency) (post : List WDependency)
    (hj : j ∈ sortJobs (get_all_queued_jobs db))
    (hdeps : j.dependencies = pre ++ d :: post)
    (hpre : ∀ x ∈ pre,
      erroredPattern ((dependency_check_modelled env j x).2) = false)
    (hd : erroredPattern ((dependency_check_modelled env j d).2) = true) :
    statusOf (scan_for_jobs_tick (dependency_check_modelled env) e db).1 j.id
      = some "dequeued"
    ∧ j ∉ (scan_for_jobs_tick (dependency_check_modelled env) e db).2
    ∧ (depLoop (dependency_check_modelled env) j j.dependencies true
        "").evaluated = pre.length + 1 := by
  have hcu : ∀ x, erroredPattern ((dependency_check_modelled env j x).2)
      = true → (dependency_check_modelled env j x).1 = false :=
    fun x hx => dependency_check_modelled_pattern_unmet env j x hx
  have hdl := depLoop_first_pattern (dependency_check_modelled env) j hcu
    pre d post true "" hpre hd
  rw [← hdeps] at hdl
  refine ⟨?_, ?_, hdl.2.2⟩
  · simp only [scan_for_jobs_tick]
    have hdq := scanJobs_broke_mem_dq (dependency_check_modelled env) e _ db
      j hj hdl.1
    have hex : idExists db j.id = true :=
      queued_idExists db j ((sortJobs_mem _ _).mp hj)
    have hall := dequeueAll_allDequeued_mem
      (scanJobs (dependency_check_modelled env) e
        (sortJobs (get_all_queued_jobs db)) db).2.1
      (scanJobs (dependency_check_modelled env) e
        (sortJobs (get_all_queued_jobs db)) db).1
      j.id ⟨j, hdq, rfl⟩
    refine statusOf_eq_dequeued _ _ hall ?_
    rw [dequeueAll_idExists, scanJobs_idExists]
    exact hex
  · intro hmem
    simp only [scan_for_jobs_tick] at hmem
    have hmet := scanJobs_disp_all_met (dependency_check_modelled env) e _
      db j hmem
    simp [hdl.2.1] at hmet

/-- Witness for C4: one enqueued job whose single dependency is a
`parent_job` dependency on a job in `Error` state. -/
theorem c4_propagated_failure_short_circuit_witness :
    statusOf
      (scan_for_jobs_tick
        (dependency_check_modelled
          ⟨fun n => if n == "p1" then some "Error" else none, fun _ => none⟩)
        (fun _ => true)
        [⟨⟨"j1", 1, 0, "h1", "experiment", "train",
            [⟨"parent_job", "p1", 1⟩]⟩, "enqueued", ""⟩]).1 "j1"
      = some "dequeued" := by
  have hq : get_all_queued_jobs
      [⟨⟨"j1", 1, 0, "h1", "experiment", "train",
          [⟨"parent_job", "p1", 1⟩]⟩, "enqueued", ""⟩]
      = [⟨"j1", 1, 0, "h1", "experiment", "train",
          [⟨"parent_job", "p1", 1⟩]⟩] := by decide
  have hj : (⟨"j1", 1, 0, "h1", "experiment", "train",
      [⟨"parent_job", "p1", 1⟩]⟩ : WJob)
      ∈ sortJobs (get_all_queued_jobs
        [⟨⟨"j1", 1, 0, "h1", "experiment", "train",
            [⟨"parent_job", "p1", 1⟩]⟩, "enqueued", ""⟩]) := by
    rw [hq, sortJobs_singleton]
    exact List.mem_singleton.mpr rfl
  exact (c4_propagated_failure_short_circuit
    ⟨fun n => if n == "p1" then some "Error" else none, fun _ => none⟩
    (fun _ => true)
    [⟨⟨"j1", 1, 0, "h1", "experiment", "train",
        [⟨"parent_job", "p1", 1⟩]⟩, "enqueued", ""⟩]
    ⟨"j1", 1, 0, "h1", "experiment", "train", [⟨"parent_job", "p1", 1⟩]⟩
    [] ⟨"parent_job", "p1", 1⟩ []
    hj rfl (fun x hx => absurd hx (List.not_mem_nil _)) (by decide)).1

/-! ## Lemmas: the pending-reason message -/

theorem depLoop_pending (c : WJob → WDependency → Bool × String) (j : WJob) :
    ∀ (deps : List WDependency) (am : Bool) (pending : String),
      (depLoop c j deps am pending).pending
        = pending ++ trailJoin (unmetMessages c j deps) := by
  intro deps
  induction deps with
  | nil =>
    intro am pending
    simp [depLoop, unmetMessages, trailJoin]
  | cons d rest ih =>
    intro am pending
    by_cases hmet : (c j d).1 = true <;>
      by_cases hpat : erroredPattern (c j d).2 = true
    · simp [depLoop, unmetMessages, hmet, hpat, trailJoin]
    · simp only [depLoop, unmetMessages, hmet, hpat, if_true, if_false,
        Bool.false_eq_true, List.nil_append]
      exact ih am pending
    · simp [depLoop, unmetMessages, hmet, hpat, trailJoin,
        String.append_assoc]
    · simp only [depLoop, unmetMessages, hmet, hpat, if_true, if_false,
        Bool.false_eq_true, List.cons_append, List.nil_append,
        List.singleton_append]
      rw [ih false (pending ++ (c j d).2 ++ reasonSep)]
      simp [trailJoin, String.append_assoc]

theorem trailJoin_eq_joinSep (m : String) (msgs : List String) :
    trailJoin (m :: msgs) = joinSep reasonSep (m :: msgs) ++ reasonSep := by
  induction msgs generalizing m with
  | nil => simp [trailJoin, joinSep]
  | cons m2 rest ih =>
    show m ++ reasonSep ++ trailJoin (m2 :: rest)
      = (m ++ reasonSep ++ joinSep reasonSep (m2 :: rest)) ++ reasonSep
    rw [ih m2]
    simp [String.append_assoc]

theorem removeLast_trailJoin (msgs : List String) :
    removeLastOccurrence reasonSep (trailJoin msgs)
      = joinSep reasonSep msgs := by
  cases msgs with
  | nil => exact removeLastOccurrence_emptyStr _
  | cons m rest =>
    rw [trailJoin_eq_joinSep]
    exact removeLastOccurrence_trailing _ _ (by decide)

theorem depLoop_all_met_false (c : WJob → WDependency → Bool × String)
    (j : WJob) :
    ∀ (deps : List WDependency) (pending : String),
      (depLoop c j deps false pending).all_met = false := by
  intro deps
  induction deps with
  | nil =>
    intro pending
    rfl
  | cons d rest ih =>
    intro pending
    by_cases hmet : (c j d).1 = true <;>
      by_cases hpat : erroredPattern (c j d).2 = true <;>
      simp only [depLoop, hmet, hpat, if_true, if_false,
        Bool.false_eq_true] <;>
      first
        | rfl
        | apply ih

theorem unmetMessages_nil_of_all_met (c : WJob → WDependency → Bool × String)
    (j : WJob) :
    ∀ (deps : List WDependency) (pending : String),
      (depLoop c j deps true pending).all_met = true →
      unmetMessages c j deps = [] := by
  intro deps
  induction deps with
  | nil =>
    intro pending _
    rfl
  | cons d rest ih =>
    intro pending h
    by_cases hmet : (c j d).1 = true <;>
      by_cases hpat : erroredPattern (c j d).2 = true
    · simp [unmetMessages, hmet, hpat]
    · simp only [depLoop, hmet, hpat, if_true, if_false,
        Bool.false_eq_true] at h
      simp only [unmetMessages, hmet, hpat, if_true, if_false,
        Bool.false_eq_true, List.nil_append]
      exact ih pending h
    · simp [depLoop, hmet, hpat] at h
    · simp only [depLoop, hmet, hpat, if_true, if_false,
        Bool.false_eq_true] at h
      rw [depLoop_all_met_false] at h
      cases h

/-- C10: on a tick the pending-reason message written onto each enqueued
job's record (and still stored after the batched removals, overwriting
any previous value) is exactly the unmet reasons of the evaluated
dependencies joined by `" and, "` with the trailing separator removed;
when every evaluated dependency is met the stored message is the empty
string. -/
theorem c10_pending_message (c : WJob → WDependency → Bool × String)
    (e : WJob → Bool) (db : JobsDb) (j : WJob)
    (hnd : (db.map (fun r => r.job.id)).Nodup)
    (hj : j ∈ sortJobs (get_all_queued_jobs db)) :
    messageOf (scan_for_jobs_tick c e db).1 j.id
      = some (joinSep reasonSep (unmetMessages c j j.dependencies))
    ∧ ((depLoop c j j.dependencies true "").all_met = true →
        messageOf (scan_for_jobs_tick c e db).1 j.id = some "") := by
  have hqsub : List.Sublist ((get_all_queued_jobs db).map WJob.id)
      (db.map (fun r => r.job.id)) := by
    unfold get_all_queued_jobs
    rw [List.map_map]
    simpa [Function.comp] using
      (List.filter_sublist db).map (fun r => r.job.id)
  have hndq : ((get_all_queued_jobs db).map WJob.id).Nodup :=
    hnd.sublist hqsub
  have hnds : ((sortJobs (get_all_queued_jobs db)).map WJob.id).Nodup :=
    (((sortJobs_perm (get_all_queued_jobs db)).map WJob.id).symm).nodup hndq
  have hex : idExists db j.id = true :=
    queued_idExists db j ((sortJobs_mem _ _).mp hj)
  have hmsg : messageOf (scan_for_jobs_tick c e db).1 j.id
      = some (removeLastOccurrence reasonSep
          (depLoop c j j.dependencies true "").pending) := by
    simp only [scan_for_jobs_tick]
    rw [dequeueAll_messageOf]
    exact scanJobs_messageOf c e _ db j hj hnds hex
  have hpend : (depLoop c j j.dependencies true "").pending
      = trailJoin (unmetMessages c j j.dependencies) := by
    rw [depLoop_pending]
    exact String.empty_append _
  constructor
  · rw [hmsg, hpend, removeLast_trailJoin]
  · intro hall
    rw [hmsg, hpend,
      unmetMessages_nil_of_all_met c j j.dependencies "" hall]
    rfl

/-- Witness for C10: a single enqueued job with one unmet dependency
whose reason is stored verbatim (no separator). -/
theorem c10_pending_message_witness :
    messageOf
      (scan_for_jobs_tick (fun _ _ => (false, "waiting for parent"))
        (fun _ => true)
        [⟨⟨"j1", 1, 0, "h1", "experiment", "train",
            [⟨"parent_job", "p1", 1⟩]⟩, "enqueued", ""⟩]).1 "j1"
      = some (joinSep reasonSep
          (unmetMessages (fun _ _ => (false, "waiting for parent"))
            ⟨"j1", 1, 0, "h1", "experiment", "train",
              [⟨"parent_job", "p1", 1⟩]⟩
            [⟨"parent_job", "p1", 1⟩])) := by
  have hq : get_all_queued_jobs
      [⟨⟨"j1", 1, 0, "h1", "experiment", "train",
          [⟨"parent_job", "p1", 1⟩]⟩, "enqueued", ""⟩]
      = [⟨"j1", 1, 0, "h1", "experiment", "train",
          [⟨"parent_job", "p1", 1⟩]⟩] := by decide
  have hj : (⟨"j1", 1, 0, "h1", "experiment", "train",
      [⟨"parent_job", "p1", 1⟩]⟩ : WJob)
      ∈ sortJobs (get_all_queued_jobs
        [⟨⟨"j1", 1, 0, "h1", "experiment", "train",
            [⟨"parent_job", "p1", 1⟩]⟩, "enqueued", ""⟩]) := by
    rw [hq, sortJobs_singleton]
    exact List.mem_singleton.mpr rfl
  exact (c10_pending_message (fun _ _ => (false, "waiting for parent"))
    (fun _ => true)
    [⟨⟨"j1", 1, 0, "h1", "experiment", "train",
        [⟨"parent_job", "p1", 1⟩]⟩, "enqueued", ""⟩]
    ⟨"j1", 1, 0, "h1", "experiment", "train", [⟨"parent_job", "p1", 1⟩]⟩
    (by decide) hj).1
